import Mathlib

/-!
Shallow embedding of the `pda_scanner` edge-case engine
(`src/bin/pda_scanner/{types,specs,cases}.rs`) of the anchor-testing-suite
repository, together with theorems settling the frozen claims about it.

Modelling conventions:
* `serde_json::Value` is embedded as the inductive `Json`.
* Solana addresses (`solana_address::Address` / `Pubkey`) are embedded as the
  inductive `Addr`; `Keypair::new()` draws are modelled by a `Nat` counter
  threaded through the functions (`Addr.fresh n`), the per-case payer keypair
  by the distinguished constructor `Addr.payer`, and the address parsed from
  an IDL file by `Addr.orig n`.  `Pubkey::find_program_address` is modelled
  by the free constructor `Addr.pda seeds prog` (distinct seed material or
  program yields a distinct address, i.e. hash collisions are abstracted
  away); `to_bytes` is modelled by the injective encoding `Addr.toBytes`.
* `HashMap<String, _>` is embedded as an association list with
  insert-overwrites semantics (`alInsert`), which realises exactly the
  `get` / `insert` / `is_empty` / `remove` operations the source uses.
* Filesystem access is embedded by passing the list of existing file names
  in the deploy directory explicitly.
-/

/-- Embedding of `serde_json::Value` (numbers restricted to integers, which is
all the scanner inspects via `as_u64`). -/
inductive Json where
  | null : Json
  | bool (b : Bool) : Json
  | num (n : Int) : Json
  | str (s : String) : Json
  | arr (xs : List Json) : Json
  | obj (fields : List (String × Json)) : Json
deriving Repr, BEq, Inhabited

namespace Json

/-- `Value::as_str`. -/
def asStr : Json → Option String
  | .str s => some s
  | _ => none

/-- `Value::as_u64` (integers in `[0, 2^64)` only). -/
def asU64 : Json → Option Nat
  | .num n => if 0 ≤ n ∧ n < (2:Int)^64 then some n.toNat else none
  | _ => none

/-- `Value::as_bool`. -/
def asBool : Json → Option Bool
  | .bool b => some b
  | _ => none

/-- `Value::as_array`. -/
def asArray : Json → Option (List Json)
  | .arr xs => some xs
  | _ => none

/-- First field with the given key, `Value::get` / indexing on objects;
indexing a non-object yields `Value::Null`. -/
def index (j : Json) (key : String) : Json :=
  match j with
  | .obj fields =>
    match fields.find? (fun f => f.1 = key) with
    | some f => f.2
    | none => .null
  | _ => .null

/-- `Value::as_object().and_then(|o| o.get key)`: `some` only on objects. -/
def objGet (j : Json) (key : String) : Option Json :=
  match j with
  | .obj fields =>
    match fields.find? (fun f => f.1 = key) with
    | some f => some f.2
    | none => none
  | _ => none

end Json

/-- Embedding of Solana addresses as drawn by the scanner (see the header
comment).  `pda seeds prog` stands for
`Pubkey::find_program_address(seeds, prog).0`. -/
inductive Addr where
  | payer : Addr
  | fresh (n : Nat) : Addr
  | orig (n : Nat) : Addr
  | pda (seeds : List (List Nat)) (prog : Addr) : Addr
deriving Repr, DecidableEq

/-- Injective model of `Address::to_bytes` (tag + payload encoding). -/
def Addr.toBytes : Addr → List Nat
  | .payer => [0]
  | .fresh n => [1, n]
  | .orig n => [2, n]
  | .pda seeds prog => 3 :: (seeds.map List.length).foldr (· + ·) 0 ::
      (seeds.foldr (· ++ ·) [] ++ Addr.toBytes prog)

/-- `types.rs`: `enum SeedSpec`. -/
inductive SeedSpec where
  | const (bytes : List Nat) : SeedSpec
  | account (path : String) : SeedSpec
deriving Repr, DecidableEq

/-- `types.rs`: `struct AccountSpec`. -/
structure AccountSpec where
  name : String
  signer : Bool
  writable : Bool
  pda_seeds : List SeedSpec
deriving Repr, DecidableEq

/-- `types.rs`: `struct ArgSpec` (type kept as raw JSON, as in the source). -/
structure ArgSpec where
  name : String
  ty : Json
deriving Repr

/-- `types.rs`: `struct InstructionSpec`. -/
structure InstructionSpec where
  name : String
  discriminator : List Nat
  accounts : List AccountSpec
  args : List ArgSpec
deriving Repr

/-- `types.rs`: `struct ProgramSpec` (`deploy_so` as a plain path string). -/
structure ProgramSpec where
  idl_file : String
  program_id : Addr
  deploy_so : String
  instructions : List InstructionSpec
deriving Repr

/-- `types.rs`: `enum Mutation`. -/
inductive Mutation where
  | none : Mutation
  | wrongProgramId : Mutation
  | truncateData : Mutation
  | wrongPda (account : String) : Mutation
deriving Repr, DecidableEq

/-- `types.rs`: `enum Expectation`. -/
inductive Expectation where
  | mustFail : Expectation
  | any : Expectation
deriving Repr, DecidableEq

/-- `types.rs`: `struct EdgeCase`. -/
structure EdgeCase where
  id : String
  idl_file : String
  program_id : Addr
  instruction : InstructionSpec
  mutation : Mutation
  expectation : Expectation
deriving Repr

/-- `types.rs`: `struct ExecutedCase`. -/
structure ExecutedCase where
  id : String
  idl_file : String
  instruction : String
  mutation : String
  expected_success : Option Bool
  actual_success : Bool
  passed : Bool
  error : Option String
deriving Repr, DecidableEq

/-! ## Mutation generator (`cases.rs::generate_edge_cases`) -/

/-- The four `cases.push(EdgeCase { .. })` literals of
`generate_edge_cases`, one helper per push site. -/
def baseCase (p : ProgramSpec) (ix : InstructionSpec) : EdgeCase :=
  { id := p.idl_file ++ "_" ++ ix.name ++ "_base"
    idl_file := p.idl_file
    program_id := p.program_id
    instruction := ix
    mutation := .none
    expectation := .any }

def wrongProgramCase (p : ProgramSpec) (ix : InstructionSpec) : EdgeCase :=
  { id := p.idl_file ++ "_" ++ ix.name ++ "_wrong_program"
    idl_file := p.idl_file
    program_id := p.program_id
    instruction := ix
    mutation := .wrongProgramId
    expectation := .mustFail }

def truncateCase (p : ProgramSpec) (ix : InstructionSpec) : EdgeCase :=
  { id := p.idl_file ++ "_" ++ ix.name ++ "_truncate_data"
    idl_file := p.idl_file
    program_id := p.program_id
    instruction := ix
    mutation := .truncateData
    expectation := .mustFail }

def wrongPdaCase (p : ProgramSpec) (ix : InstructionSpec) (acc : AccountSpec) :
    EdgeCase :=
  { id := p.idl_file ++ "_" ++ ix.name ++ "_wrong_pda_" ++ acc.name
    idl_file := p.idl_file
    program_id := p.program_id
    instruction := ix
    mutation := .wrongPda acc.name
    expectation := .mustFail }

/-- The body of the innermost loop of `generate_edge_cases` (conditional push
of a `WrongPda` case). -/
def accStep (p : ProgramSpec) (ix : InstructionSpec) (cases : List EdgeCase)
    (acc : AccountSpec) : List EdgeCase :=
  if acc.pda_seeds.isEmpty then cases else cases ++ [wrongPdaCase p ix acc]

/-- The body of the per-instruction loop of `generate_edge_cases`: three
unconditional pushes, then the account loop. -/
def ixStep (p : ProgramSpec) (cases : List EdgeCase) (ix : InstructionSpec) :
    List EdgeCase :=
  let cases := cases ++ [baseCase p ix]
  let cases := cases ++ [wrongProgramCase p ix]
  let cases := cases ++ [truncateCase p ix]
  ix.accounts.foldl (accStep p ix) cases

/-- The body of the per-program loop of `generate_edge_cases`. -/
def progStep (cases : List EdgeCase) (p : ProgramSpec) : List EdgeCase :=
  p.instructions.foldl (ixStep p) cases

/-- `cases.rs::generate_edge_cases`, translated loop-for-loop: an accumulator
list of cases, extended by pushes while iterating programs, instructions and
accounts in order. -/
def generate_edge_cases (programs : List ProgramSpec) : List EdgeCase :=
  programs.foldl progStep []

/-- The block of cases `generate_edge_cases` contributes for one
instruction. -/
def instrCases (p : ProgramSpec) (ix : InstructionSpec) : List EdgeCase :=
  baseCase p ix :: wrongProgramCase p ix :: truncateCase p ix ::
    (ix.accounts.filter (fun acc => ¬ acc.pda_seeds.isEmpty)).map
      (wrongPdaCase p ix)

/-! ### Structure of the generator output -/

lemma accFold_eq (p : ProgramSpec) (ix : InstructionSpec)
    (accounts : List AccountSpec) (cases : List EdgeCase) :
    accounts.foldl (accStep p ix) cases =
    cases ++ (accounts.filter (fun acc => ¬ acc.pda_seeds.isEmpty)).map
      (wrongPdaCase p ix) := by
  induction accounts generalizing cases with
  | nil => simp
  | cons a rest ih =>
    by_cases h : a.pda_seeds.isEmpty
    · rw [List.foldl_cons]
      rw [show accStep p ix cases a = cases from if_pos h, ih, List.filter_cons]
      simp [h]
    · rw [List.foldl_cons]
      rw [show accStep p ix cases a = cases ++ [wrongPdaCase p ix a] from
        if_neg h, ih, List.filter_cons]
      simp [h]

lemma ixStep_eq (p : ProgramSpec) (cases : List EdgeCase)
    (ix : InstructionSpec) :
    ixStep p cases ix = cases ++ instrCases p ix := by
  rw [ixStep, accFold_eq, instrCases]
  simp

lemma ixFold_eq (p : ProgramSpec) (ixs : List InstructionSpec)
    (cases : List EdgeCase) :
    ixs.foldl (ixStep p) cases = cases ++ ixs.flatMap (instrCases p) := by
  induction ixs generalizing cases with
  | nil => simp
  | cons ix rest ih =>
    rw [List.foldl_cons, ih, ixStep_eq]
    simp

lemma progStep_eq (cases : List EdgeCase) (p : ProgramSpec) :
    progStep cases p =
      cases ++ p.instructions.flatMap (instrCases p) := by
  rw [progStep, ixFold_eq]

/-- `generate_edge_cases` is the concatenation, in program order and then
instruction order, of the per-instruction blocks `instrCases`. -/
lemma generate_edge_cases_eq (programs : List ProgramSpec) :
    generate_edge_cases programs =
      programs.flatMap (fun p => p.instructions.flatMap (instrCases p)) := by
  have h : ∀ (ps : List ProgramSpec) (cases : List EdgeCase),
      ps.foldl progStep cases =
      cases ++ ps.flatMap (fun p => p.instructions.flatMap (instrCases p)) := by
    intro ps
    induction ps with
    | nil => simp
    | cons p rest ih =>
      intro cases
      rw [List.foldl_cons, ih, progStep_eq]
      simp
  rw [generate_edge_cases, h]
  simp

/-- C1: for every instruction (of every program handed to the generator) with
k seeded accounts, `generate_edge_cases` emits a contiguous block of exactly
k+3 cases for it: baseline `None`/`Any`, then `WrongProgramId`/`MustFail`,
then `TruncateData`/`MustFail`, then one `WrongPda{account}`/`MustFail` per
account with a non-empty seed list, in account declaration order. -/
theorem c1_generator_emits_k_plus_3_cases (programs : List ProgramSpec)
    (p : ProgramSpec) (ix : InstructionSpec)
    (hp : p ∈ programs) (hix : ix ∈ p.instructions) :
    (∃ pre post,
      generate_edge_cases programs = pre ++ instrCases p ix ++ post) ∧
    (instrCases p ix).map (fun c => (c.mutation, c.expectation)) =
      (Mutation.none, Expectation.any) ::
      (Mutation.wrongProgramId, Expectation.mustFail) ::
      (Mutation.truncateData, Expectation.mustFail) ::
      (ix.accounts.filter (fun acc => ¬ acc.pda_seeds.isEmpty)).map
        (fun acc => (Mutation.wrongPda acc.name, Expectation.mustFail)) ∧
    (instrCases p ix).length =
      (ix.accounts.filter (fun acc => ¬ acc.pda_seeds.isEmpty)).length + 3 := by
  refine ⟨?_, ?_, ?_⟩
  · obtain ⟨s, t, rfl⟩ := List.append_of_mem hp
    obtain ⟨u, v, hins⟩ := List.append_of_mem hix
    rw [generate_edge_cases_eq]
    refine ⟨s.flatMap (fun q => q.instructions.flatMap (instrCases q)) ++
        u.flatMap (instrCases p),
      v.flatMap (instrCases p) ++
        t.flatMap (fun q => q.instructions.flatMap (instrCases q)), ?_⟩
    simp [hins]
  · simp [instrCases, baseCase, wrongProgramCase, truncateCase, wrongPdaCase,
      List.map_map, Function.comp]
  · simp [instrCases]

/-! Concrete fixture: one program with a `deposit`-style instruction whose
`vault` account is seed-derived from a constant and the `user` account. -/

def exVault : AccountSpec :=
  { name := "vault", signer := false, writable := true
    pda_seeds := [SeedSpec.const [118, 97, 117, 108, 116],
                  SeedSpec.account "user"] }

def exUser : AccountSpec :=
  { name := "user", signer := true, writable := true, pda_seeds := [] }

def exIx : InstructionSpec :=
  { name := "deposit"
    discriminator := [242, 35, 198, 137, 82, 225, 242, 182]
    accounts := [exVault, exUser]
    args := [{ name := "amount", ty := Json.str "u64" }] }

def exProgram : ProgramSpec :=
  { idl_file := "demo.json"
    program_id := Addr.orig 0
    deploy_so := "deploy/demo.so"
    instructions := [exIx] }

theorem c1_witness :
    generate_edge_cases [exProgram] = instrCases exProgram exIx ∧
    (instrCases exProgram exIx).map (fun c => (c.mutation, c.expectation)) =
      [(Mutation.none, Expectation.any),
       (Mutation.wrongProgramId, Expectation.mustFail),
       (Mutation.truncateData, Expectation.mustFail),
       (Mutation.wrongPda "vault", Expectation.mustFail)] ∧
    (instrCases exProgram exIx).length = 4 := by
  have h := c1_generator_emits_k_plus_3_cases [exProgram] exProgram exIx
    (by simp) (by simp [exProgram])
  exact ⟨rfl, h.2.1.trans (by rfl), h.2.2.trans (by rfl)⟩

/-! ## Payload encoder (`cases.rs::encode_arg_zero`,
`cases.rs::encode_instruction_data`) -/

/-- `inner_bytes.into_iter().cycle().take(len).collect()`: the element bytes
repeated cyclically and cut to `n` BYTES (empty input yields an empty
result, as Rust's `cycle` over an empty iterator is empty). -/
def cycleTake (xs : List Nat) (n : Nat) : List Nat :=
  if xs.isEmpty then []
  else (List.range n).map (fun i => xs.getD (i % xs.length) 0)

mutual

/-- `cases.rs::encode_arg_zero`: zero-valued encoding of a declared argument
type (primitive tag string, or `{"array": [elemTy, len]}` object). -/
def encode_arg_zero : Json → Except String (List Nat)
  | .str s =>
    match s with
    | "bool" => .ok [0]
    | "u8" => .ok [0]
    | "i8" => .ok [0]
    | "u16" => .ok (List.replicate 2 0)
    | "i16" => .ok (List.replicate 2 0)
    | "u32" => .ok (List.replicate 4 0)
    | "i32" => .ok (List.replicate 4 0)
    | "u64" => .ok (List.replicate 8 0)
    | "i64" => .ok (List.replicate 8 0)
    | "u128" => .ok (List.replicate 16 0)
    | "i128" => .ok (List.replicate 16 0)
    | "pubkey" => .ok (List.replicate 32 0)
    | _ => .error "primitive not supported"
  | .obj fields => encodeArrayField fields
  | _ => .error "complex arg type not supported"

/-- The `obj.get("array")` branch of `encode_arg_zero`: first field named
`array` is taken; a missing field falls through to the complex-type error. -/
def encodeArrayField : List (String × Json) → Except String (List Nat)
  | [] => .error "complex arg type not supported"
  | (k, v) :: rest =>
    if k = "array" then
      match v with
      | .arr [elemTy, lenJ] =>
        match encode_arg_zero elemTy with
        | .ok inner =>
          match lenJ.asU64 with
          | some len => .ok (cycleTake inner len)
          | none => .error "invalid array len"
        | .error e => .error e
      | _ => .error "invalid array type"
    else encodeArrayField rest

end

/-- `cases.rs::encode_instruction_data`: the `for arg in &ix.args` loop,
extending the discriminator with each argument's zero encoding and wrapping
encoder errors in the `arg .. type not supported` message. -/
def encodeArgsLoop : List ArgSpec → List Nat → Except String (List Nat)
  | [], out => .ok out
  | arg :: rest, out =>
    match encode_arg_zero arg.ty with
    | .ok bytes => encodeArgsLoop rest (out ++ bytes)
    | .error e =>
      .error ("arg " ++ arg.name ++ " type not supported: " ++ e)

def encode_instruction_data (ix : InstructionSpec) :
    Except String (List Nat) :=
  encodeArgsLoop ix.args ix.discriminator

/-- C2, counterexample: the claim says a fixed array of length `n` over a
width-`w` element encodes to `n * w` bytes; the code cycles the element
bytes and takes `n` BYTES, so `{"array": ["u16", 3]}` encodes to 3 bytes,
not `3 * 2 = 6`. -/
theorem c2_counterexample :
    encode_arg_zero (Json.str "u16") = .ok [0, 0] ∧
    encode_arg_zero
        (Json.obj [("array", Json.arr [Json.str "u16", Json.num 3])]) =
      .ok [0, 0, 0] ∧
    ¬ (∃ out, encode_arg_zero
          (Json.obj [("array", Json.arr [Json.str "u16", Json.num 3])]) =
        .ok out ∧ out.length = 3 * 2) := by
  refine ⟨by rfl, by rfl, ?_⟩
  rintro ⟨out, hout, hlen⟩
  rw [show encode_arg_zero
      (Json.obj [("array", Json.arr [Json.str "u16", Json.num 3])]) =
      .ok [0, 0, 0] from rfl] at hout
  cases hout
  simp at hlen

/-- C2, amended: every supported primitive tag of declared width `w` encodes
to exactly `w` zero bytes; a fixed array descriptor `{"array": [elemTy, n]}`
whose element encodes to the byte list `inner` encodes to `inner` cycled and
truncated to exactly `n` bytes (`n * w` bytes only when `w = 1`). -/
theorem c2_encoder_widths :
    (encode_arg_zero (Json.str "bool") = .ok (List.replicate 1 0) ∧
     encode_arg_zero (Json.str "u8") = .ok (List.replicate 1 0) ∧
     encode_arg_zero (Json.str "i8") = .ok (List.replicate 1 0) ∧
     encode_arg_zero (Json.str "u16") = .ok (List.replicate 2 0) ∧
     encode_arg_zero (Json.str "i16") = .ok (List.replicate 2 0) ∧
     encode_arg_zero (Json.str "u32") = .ok (List.replicate 4 0) ∧
     encode_arg_zero (Json.str "i32") = .ok (List.replicate 4 0) ∧
     encode_arg_zero (Json.str "u64") = .ok (List.replicate 8 0) ∧
     encode_arg_zero (Json.str "i64") = .ok (List.replicate 8 0) ∧
     encode_arg_zero (Json.str "u128") = .ok (List.replicate 16 0) ∧
     encode_arg_zero (Json.str "i128") = .ok (List.replicate 16 0) ∧
     encode_arg_zero (Json.str "pubkey") = .ok (List.replicate 32 0)) ∧
    ∀ (elemTy lenJ : Json) (n : Nat) (inner : List Nat),
      encode_arg_zero elemTy = .ok inner →
      lenJ.asU64 = some n →
      encode_arg_zero (Json.obj [("array", Json.arr [elemTy, lenJ])]) =
          .ok (cycleTake inner n) ∧
        (inner ≠ [] → (cycleTake inner n).length = n) := by
  refine ⟨by repeat constructor, ?_⟩
  intro elemTy lenJ n inner hinner hlen
  constructor
  · rw [encode_arg_zero, encodeArrayField]
    simp [hinner, hlen]
  · intro hne
    rw [cycleTake, if_neg (by simpa using hne)]
    simp

theorem c2_witness :
    encode_arg_zero (Json.str "u16") = .ok [0, 0] ∧
    Json.asU64 (Json.num 3) = some 3 ∧
    encode_arg_zero
        (Json.obj [("array", Json.arr [Json.str "u16", Json.num 3])]) =
      .ok (cycleTake [0, 0] 3) ∧
    ([0, 0] : List Nat) ≠ [] ∧
    (cycleTake [0, 0] 3).length = 3 := by
  have h := (c2_encoder_widths.2 (Json.str "u16") (Json.num 3) 3 [0, 0]
    (by rfl) (by rfl))
  exact ⟨by rfl, by rfl, h.1, by simp, h.2 (by simp)⟩

/-! ## Case executor and judge (`cases.rs::execute_edge_cases`) -/

/-- The string labels `execute_edge_cases` stores in
`ExecutedCase::mutation`. -/
def mutationLabel : Mutation → String
  | .none => "none"
  | .wrongProgramId => "wrong_program_id"
  | .truncateData => "truncate_data"
  | .wrongPda account => "wrong_pda:" ++ account

/-- Per-case body of the `for case in cases` loop of `execute_edge_cases`,
with the outcome of `run_case` (the oracle run) passed in explicitly:
derives `(actual_success, error)` from the run and
`(expected_success, passed)` from the expectation. -/
def judgeCase (case : EdgeCase) (run : Except String Unit) : ExecutedCase :=
  let actual_success := match run with | .ok _ => true | .error _ => false
  let error := match run with | .ok _ => none | .error e => some e
  let ep : Option Bool × Bool :=
    match case.expectation with
    | .any => (none, true)
    | .mustFail => (some false, !actual_success)
  { id := case.id
    idl_file := case.idl_file
    instruction := case.instruction.name
    mutation := mutationLabel case.mutation
    expected_success := ep.1
    actual_success := actual_success
    passed := ep.2
    error := error }

/-- `execute_edge_cases` over an explicit oracle (`run_case`) and the
`program_bytes` table membership test: cases whose program id was not
loaded are skipped, all others are judged in order. -/
def execute_edge_cases (oracle : EdgeCase → Except String Unit)
    (known : Addr → Bool) (cases : List EdgeCase) : List ExecutedCase :=
  cases.foldl
    (fun out case =>
      if known case.program_id then out ++ [judgeCase case (oracle case)]
      else out)
    []

/-- C5: the judge passes every `Any`-expectation case regardless of the
observed outcome; a `MustFail` case passes iff the observed run failed; a
failed run records the oracle's diagnostic (and counts as not successful),
a successful run records no diagnostic. -/
theorem c5_judge_verdict (case : EdgeCase) (run : Except String Unit) :
    (case.expectation = .any → (judgeCase case run).passed = true) ∧
    (case.expectation = .mustFail →
      ((judgeCase case run).passed = true ↔ ∃ e, run = .error e)) ∧
    (∀ e, run = .error e →
      (judgeCase case run).error = some e ∧
      (judgeCase case run).actual_success = false) ∧
    (run = .ok () →
      (judgeCase case run).error = none ∧
      (judgeCase case run).actual_success = true) := by
  refine ⟨fun h => ?_, fun h => ?_, fun e h => ?_, fun h => ?_⟩
  · simp [judgeCase, h]
  · cases run with
    | ok u => simp [judgeCase, h]
    | error e => simp [judgeCase, h]
  · simp [judgeCase, h]
  · simp [judgeCase, h]

theorem c5_witness :
    (judgeCase (wrongProgramCase exProgram exIx) (.error "boom")).passed =
        true ∧
    (judgeCase (wrongProgramCase exProgram exIx) (.error "boom")).error =
        some "boom" ∧
    (judgeCase (baseCase exProgram exIx) (.ok ())).passed = true ∧
    (judgeCase (baseCase exProgram exIx) (.ok ())).error = none := by
  have h1 := c5_judge_verdict (wrongProgramCase exProgram exIx)
    (.error "boom")
  have h2 := c5_judge_verdict (baseCase exProgram exIx) (.ok ())
  exact ⟨(h1.2.1 rfl).mpr ⟨"boom", rfl⟩, (h1.2.2.1 "boom" rfl).1,
    h2.1 rfl, (h2.2.2.2 rfl).1⟩

/-! ## Account resolver (`cases.rs::build_accounts`) -/

/-- `HashMap::insert` on the association-list model (overwrite or append). -/
def alInsert {α : Type} (k : String) (v : α) :
    List (String × α) → List (String × α)
  | [] => [(k, v)]
  | (k', v') :: rest =>
    if k' = k then (k, v) :: rest else (k', v') :: alInsert k v rest

/-- `HashMap::get`. -/
def alLookup {α : Type} (k : String) : List (String × α) → Option α
  | [] => none
  | (k', v') :: rest => if k' = k then some v' else alLookup k rest

/-- `HashMap::remove` (the removal part; the returned value is
`alLookup`). -/
def alRemove {α : Type} (k : String) :
    List (String × α) → List (String × α)
  | [] => []
  | (k', v') :: rest =>
    if k' = k then rest else (k', v') :: alRemove k rest

/-- State of pass 1 of `build_accounts`: the `signer_by_name` and
`pubkey_by_name` maps plus the fresh-keypair counter (a signing identity is
identified with the index `n` of its draw, its public key being
`Addr.fresh n`). -/
structure ResolverSt where
  signerByName : List (String × Nat)
  pubkeyByName : List (String × Addr)
  ctr : Nat
deriving Repr, DecidableEq

/-- Body of the first `for acc in &case.instruction.accounts` loop of
`build_accounts`: a signer is bound to the payer if `pubkey_by_name` is
still empty, otherwise to a fresh keypair that is also recorded in
`signer_by_name`; a non-signer is bound to a fresh keypair's address. -/
def pass1Step (payer : Addr) (st : ResolverSt) (acc : AccountSpec) :
    ResolverSt :=
  if acc.signer then
    if st.pubkeyByName.isEmpty then
      { st with pubkeyByName := alInsert acc.name payer st.pubkeyByName }
    else
      { signerByName := alInsert acc.name st.ctr st.signerByName
        pubkeyByName :=
          alInsert acc.name (Addr.fresh st.ctr) st.pubkeyByName
        ctr := st.ctr + 1 }
  else
    { st with
        pubkeyByName := alInsert acc.name (Addr.fresh st.ctr) st.pubkeyByName
        ctr := st.ctr + 1 }

def pass1 (payer : Addr) (accounts : List AccountSpec) (st : ResolverSt) :
    ResolverSt :=
  accounts.foldl (pass1Step payer) st

/-- The `for seed in &acc.pda_seeds` loop of `build_accounts`: `none` iff
some `Account(path)` seed is not bound in `pubkey_by_name` (the source
breaks out and skips the account), otherwise the seed byte strings in
declared order. -/
def resolveSeeds (m : List (String × Addr)) :
    List SeedSpec → Option (List (List Nat))
  | [] => some []
  | SeedSpec.const b :: rest => (resolveSeeds m rest).map (fun l => b :: l)
  | SeedSpec.account p :: rest =>
    match alLookup p m with
    | some pk => (resolveSeeds m rest).map (fun l => pk.toBytes :: l)
    | none => none

/-- Body of the second `for acc in &case.instruction.accounts` loop of
`build_accounts`: accounts with no seeds are untouched; unresolvable seed
lists leave the map unchanged; otherwise the account is rebound to
`find_program_address(seeds, case.program_id)`. -/
def pass2Step (progId : Addr) (m : List (String × Addr))
    (acc : AccountSpec) : List (String × Addr) :=
  if acc.pda_seeds.isEmpty then m
  else
    match resolveSeeds m acc.pda_seeds with
    | some seeds => alInsert acc.name (Addr.pda seeds progId) m
    | none => m

def pass2 (progId : Addr) (accounts : List AccountSpec)
    (m : List (String × Addr)) : List (String × Addr) :=
  accounts.foldl (pass2Step progId) m

/-- The `if let Mutation::WrongPda { account } = &case.mutation` block of
`build_accounts`: overwrite an existing binding with a fresh address. -/
def applyWrongPdaMutation (mu : Mutation) (m : List (String × Addr))
    (ctr : Nat) : List (String × Addr) × Nat :=
  match mu with
  | .wrongPda account =>
    if (alLookup account m).isSome then
      (alInsert account (Addr.fresh ctr) m, ctr + 1)
    else (m, ctr)
  | _ => (m, ctr)

/-- `solana_instruction::AccountMeta` (pubkey, signer and writable flags). -/
structure AccountMeta where
  pubkey : Addr
  is_signer : Bool
  is_writable : Bool
deriving Repr, DecidableEq

/-- The final `for acc in &case.instruction.accounts` loop of
`build_accounts`: emit one meta per account in declaration order (falling
back to a fresh address when the name is unbound), collecting
`signer_by_name` keypairs as extra signers in account order. -/
def pass3 (m : List (String × Addr)) (signers : List (String × Nat))
    (ctr : Nat) :
    List AccountSpec → List AccountMeta × List Nat × Nat
  | [] => ([], [], ctr)
  | acc :: rest =>
    let kc : Addr × Nat :=
      match alLookup acc.name m with
      | some k => (k, ctr)
      | none => (Addr.fresh ctr, ctr + 1)
    let meta : AccountMeta :=
      { pubkey := kc.1, is_signer := acc.signer
        is_writable := acc.writable }
    match alLookup acc.name signers with
    | some kp =>
      let r := pass3 m (alRemove acc.name signers) kc.2 rest
      (meta :: r.1, kp :: r.2.1, r.2.2)
    | none =>
      let r := pass3 m signers kc.2 rest
      (meta :: r.1, r.2.1, r.2.2)

/-- `cases.rs::build_accounts`: the two resolution passes, the `WrongPda`
mutation application, then meta construction.  Returns the metas, the extra
signing identities (by draw index) and the updated fresh counter. -/
def build_accounts (payer : Addr) (case : EdgeCase) (ctr : Nat) :
    List AccountMeta × List Nat × Nat :=
  let st := pass1 payer case.instruction.accounts ⟨[], [], ctr⟩
  let m := pass2 case.program_id case.instruction.accounts st.pubkeyByName
  let mc := applyWrongPdaMutation case.mutation m st.ctr
  pass3 mc.1 st.signerByName mc.2 case.instruction.accounts

/-- `solana_instruction::Instruction` as assembled by `run_case`. -/
structure BuiltInstruction where
  program_id : Addr
  accounts : List AccountMeta
  data : List Nat
deriving Repr, DecidableEq

/-- The instruction-construction part of `cases.rs::run_case` (everything up
to and excluding `send_ix`, which is the external oracle): a fresh per-case
payer, `build_accounts`, payload encoding, the `TruncateData` pop, and the
`WrongProgramId` routing substitution. -/
def run_case_build (case : EdgeCase) (ctr : Nat) :
    Except String (BuiltInstruction × List Nat × Nat) :=
  let bs := build_accounts Addr.payer case ctr
  match encode_instruction_data case.instruction with
  | .error e => .error e
  | .ok data0 =>
    let data :=
      if case.mutation = .truncateData ∧ ¬ data0.isEmpty then
        data0.dropLast
      else data0
    let pc : Addr × Nat :=
      match case.mutation with
      | .wrongProgramId => (Addr.fresh bs.2.2, bs.2.2 + 1)
      | _ => (case.program_id, bs.2.2)
    .ok ({ program_id := pc.1, accounts := bs.1, data := data },
      bs.2.1, pc.2)

/-! ### Association-list facts used by the resolver proofs -/

lemma alLookup_alInsert_self {α : Type} (k : String) (v : α)
    (l : List (String × α)) : alLookup k (alInsert k v l) = some v := by
  induction l with
  | nil => simp [alInsert, alLookup]
  | cons pr rest ih =>
    by_cases h : pr.1 = k
    · simp [alInsert, alLookup, h]
    · cases pr
      simp_all [alInsert, alLookup]

lemma alLookup_alInsert_ne {α : Type} (k k' : String) (v : α)
    (l : List (String × α)) (h : k' ≠ k) :
    alLookup k (alInsert k' v l) = alLookup k l := by
  induction l with
  | nil => simp [alInsert, alLookup, h]
  | cons pr rest ih =>
    cases pr with
    | mk k0 v0 =>
      by_cases h0 : k0 = k'
      · simp [alInsert, alLookup, h0, h, Ne.symm h]
      · by_cases h1 : k0 = k <;>
          simp [alInsert, alLookup, h0, h1, Ne.symm h, ih]

lemma alInsert_ne_nil {α : Type} (k : String) (v : α)
    (l : List (String × α)) : alInsert k v l ≠ [] := by
  cases l with
  | nil => simp [alInsert]
  | cons pr rest =>
    cases pr with
    | mk k0 v0 =>
      by_cases h : k0 = k <;> simp [alInsert, h]

lemma alInsert_mem {α : Type} {k : String} {v : α} {l : List (String × α)}
    {pr : String × α} (h : pr ∈ alInsert k v l) : pr = (k, v) ∨ pr ∈ l := by
  induction l with
  | nil => simpa [alInsert] using h
  | cons pr0 rest ih =>
    cases pr0 with
    | mk k0 v0 =>
      by_cases h0 : k0 = k
      · rw [alInsert, if_pos h0] at h
        rcases List.mem_cons.mp h with h1 | h1
        · exact Or.inl h1
        · exact Or.inr (List.mem_cons_of_mem _ h1)
      · rw [alInsert, if_neg h0] at h
        rcases List.mem_cons.mp h with h1 | h1
        · exact Or.inr (List.mem_cons.mpr (Or.inl h1))
        · rcases ih h1 with h2 | h2
          · exact Or.inl h2
          · exact Or.inr (List.mem_cons_of_mem _ h2)

lemma alLookup_mem {α : Type} {k : String} {v : α} {l : List (String × α)}
    (h : alLookup k l = some v) : (k, v) ∈ l := by
  induction l with
  | nil => simp [alLookup] at h
  | cons pr rest ih =>
    cases pr with
    | mk k0 v0 =>
      by_cases h0 : k0 = k
      · rw [alLookup, if_pos h0] at h
        cases h
        subst h0
        exact List.mem_cons_self _ _
      · rw [alLookup, if_neg h0] at h
        exact List.mem_cons_of_mem _ (ih h)

/-! ### Pass-1 facts -/

lemma pass1_cons (payer0 : Addr) (a : AccountSpec)
    (rest : List AccountSpec) (st : ResolverSt) :
    pass1 payer0 (a :: rest) st =
      pass1 payer0 rest (pass1Step payer0 st a) := rfl

lemma pass1Step_lookup_ne (payer0 : Addr) (st : ResolverSt)
    (a : AccountSpec) (name : String) (h : name ≠ a.name) :
    alLookup name (pass1Step payer0 st a).pubkeyByName =
      alLookup name st.pubkeyByName ∧
    alLookup name (pass1Step payer0 st a).signerByName =
      alLookup name st.signerByName := by
  rw [pass1Step]
  by_cases hs : a.signer
  · by_cases he : st.pubkeyByName.isEmpty <;>
      simp [hs, he, alLookup_alInsert_ne _ _ _ _ (Ne.symm h)]
  · simp [hs, alLookup_alInsert_ne _ _ _ _ (Ne.symm h)]

lemma pass1_lookup_preserved (payer0 : Addr) (accounts : List AccountSpec)
    (st : ResolverSt) (name : String)
    (h : name ∉ accounts.map AccountSpec.name) :
    alLookup name (pass1 payer0 accounts st).pubkeyByName =
      alLookup name st.pubkeyByName ∧
    alLookup name (pass1 payer0 accounts st).signerByName =
      alLookup name st.signerByName := by
  induction accounts generalizing st with
  | nil => exact ⟨rfl, rfl⟩
  | cons a rest ih =>
    simp only [List.map_cons, List.mem_cons] at h
    push_neg at h
    obtain ⟨hne, hrest⟩ := h
    rw [pass1_cons]
    have hstep := pass1Step_lookup_ne payer0 st a name hne
    have hr := ih (pass1Step payer0 st a) hrest
    exact ⟨hr.1.trans hstep.1, hr.2.trans hstep.2⟩

lemma pass1Step_pubkey_ne_nil (payer0 : Addr) (st : ResolverSt)
    (a : AccountSpec) : (pass1Step payer0 st a).pubkeyByName ≠ [] := by
  rw [pass1Step]
  by_cases hs : a.signer
  · by_cases he : st.pubkeyByName.isEmpty <;>
      simp [hs, he, alInsert_ne_nil]
  · simp [hs, alInsert_ne_nil]

lemma pass1_pubkey_stay (payer0 : Addr) (accounts : List AccountSpec)
    (st : ResolverSt) (h : st.pubkeyByName ≠ []) :
    (pass1 payer0 accounts st).pubkeyByName ≠ [] := by
  induction accounts generalizing st with
  | nil => exact h
  | cons a rest ih =>
    rw [pass1_cons]
    exact ih _ (pass1Step_pubkey_ne_nil payer0 st a)

lemma pass1_signer_fresh (payer0 : Addr) (accounts : List AccountSpec)
    (st : ResolverSt) (hnd : (accounts.map AccountSpec.name).Nodup)
    (hne : st.pubkeyByName ≠ []) :
    ∀ acc ∈ accounts, acc.signer = true →
      ∃ n, alLookup acc.name
            (pass1 payer0 accounts st).pubkeyByName = some (Addr.fresh n) ∧
        alLookup acc.name
            (pass1 payer0 accounts st).signerByName = some n := by
  induction accounts generalizing st with
  | nil => intro acc hmem; cases hmem
  | cons a rest ih =>
    intro acc hmem hs
    simp only [List.map_cons, List.nodup_cons] at hnd
    obtain ⟨hnot, hnd'⟩ := hnd
    rw [pass1_cons]
    rcases List.mem_cons.mp hmem with rfl | hmem'
    · have hstep :
          alLookup acc.name
              (pass1Step payer0 st acc).pubkeyByName =
            some (Addr.fresh st.ctr) ∧
          alLookup acc.name
              (pass1Step payer0 st acc).signerByName = some st.ctr := by
        rw [pass1Step]
        have hie : st.pubkeyByName.isEmpty = false := by
          simpa using hne
        simp [hs, hie, alLookup_alInsert_self]
      have hpres := pass1_lookup_preserved payer0 rest
        (pass1Step payer0 st acc) acc.name hnot
      exact ⟨st.ctr, hpres.1.trans hstep.1, hpres.2.trans hstep.2⟩
    · exact ih (pass1Step payer0 st a) hnd'
        (pass1Step_pubkey_ne_nil payer0 st a) acc hmem' hs

/-- Distinct names in `signer_by_name` hold distinct signing identities. -/
def DistinctVals (l : List (String × Nat)) : Prop :=
  ∀ pr1 ∈ l, ∀ pr2 ∈ l, pr1.1 ≠ pr2.1 → pr1.2 ≠ pr2.2

lemma pass1_signer_inv (payer0 : Addr) (accounts : List AccountSpec)
    (st : ResolverSt)
    (hb : ∀ pr ∈ st.signerByName, pr.2 < st.ctr)
    (hd : DistinctVals st.signerByName) :
    (∀ pr ∈ (pass1 payer0 accounts st).signerByName,
      pr.2 < (pass1 payer0 accounts st).ctr) ∧
    DistinctVals (pass1 payer0 accounts st).signerByName := by
  induction accounts generalizing st with
  | nil => exact ⟨hb, hd⟩
  | cons a rest ih =>
    rw [pass1_cons]
    refine ih (pass1Step payer0 st a) ?_ ?_
    · intro pr hpr
      rw [pass1Step] at hpr ⊢
      by_cases hs : a.signer
      · by_cases he : st.pubkeyByName.isEmpty
        · simp only [hs, he, if_true] at hpr ⊢
          exact hb pr hpr
        · simp only [hs, he, if_true, if_false] at hpr ⊢
          rcases alInsert_mem hpr with h1 | h1
          · rw [h1]
            exact Nat.lt_succ_self _
          · exact Nat.lt_succ_of_lt (hb pr h1)
      · simp only [hs, if_false] at hpr ⊢
        exact Nat.lt_succ_of_lt (hb pr hpr)
    · intro pr1 hpr1 pr2 hpr2 hk
      rw [pass1Step] at hpr1 hpr2
      by_cases hs : a.signer
      · by_cases he : st.pubkeyByName.isEmpty
        · simp only [hs, he, if_true] at hpr1 hpr2
          exact hd pr1 hpr1 pr2 hpr2 hk
        · simp only [hs, he, if_true, if_false] at hpr1 hpr2
          rcases alInsert_mem hpr1 with h1 | h1 <;>
            rcases alInsert_mem hpr2 with h2 | h2
          · rw [h1, h2] at hk
            exact absurd rfl hk
          · rw [h1]
            exact fun hv => absurd hv.symm (Nat.ne_of_lt (hb pr2 h2))
          · rw [h2]
            exact Nat.ne_of_lt (hb pr1 h1)
          · exact hd pr1 h1 pr2 h2 hk
      · simp only [hs, if_false] at hpr1 hpr2
        exact hd pr1 hpr1 pr2 hpr2 hk

/-- C3, counterexample: in the instruction `[a(non-signer), b(signer)]` the
first (and only) signer-flagged account `b` is NOT bound to the primary
payer: because the non-signer `a` was processed first, `pubkey_by_name` is
already non-empty, so `b` receives a fresh signing identity; no account at
all is bound to the payer. -/
def c3Ix : InstructionSpec :=
  { name := "init"
    discriminator := [1, 2, 3, 4, 5, 6, 7, 8]
    accounts := [{ name := "a", signer := false, writable := true
                   pda_seeds := [] },
                 { name := "b", signer := true, writable := true
                   pda_seeds := [] }]
    args := [] }

def c3Case : EdgeCase :=
  { id := "demo.json_init_base", idl_file := "demo.json"
    program_id := Addr.orig 0, instruction := c3Ix
    mutation := .none, expectation := .any }

theorem c3_counterexample :
    (build_accounts Addr.payer c3Case 0).1.map AccountMeta.pubkey =
      [Addr.fresh 0, Addr.fresh 1] ∧
    (∀ meta ∈ (build_accounts Addr.payer c3Case 0).1,
      meta.pubkey ≠ Addr.payer) ∧
    alLookup "b"
        (pass1 Addr.payer c3Ix.accounts ⟨[], [], 0⟩).pubkeyByName =
      some (Addr.fresh 1) := by
  refine ⟨rfl, ?_, rfl⟩
  decide

/-- C3, amended: the primary payer is bound to the FIRST DECLARED account
when that account is signer-flagged (and that binding is not tracked as an
extra signing identity); every signer-flagged account that is not in first
declaration position — in particular the first signer when any non-signer
precedes it — is bound to a freshly drawn signing identity `Addr.fresh n`
recorded under its name in `signer_by_name`, distinct names receiving
distinct identities. -/
theorem c3_signer_binding (payer0 : Addr) (c0 : Nat)
    (accounts : List AccountSpec)
    (hnd : (accounts.map AccountSpec.name).Nodup) :
    (∀ a0 rest, accounts = a0 :: rest → a0.signer = true →
      alLookup a0.name
          (pass1 payer0 accounts ⟨[], [], c0⟩).pubkeyByName = some payer0 ∧
      alLookup a0.name
          (pass1 payer0 accounts ⟨[], [], c0⟩).signerByName = none) ∧
    (∀ a0 rest, accounts = a0 :: rest →
      ∀ acc ∈ rest, acc.signer = true →
        ∃ n, alLookup acc.name
              (pass1 payer0 accounts ⟨[], [], c0⟩).pubkeyByName =
            some (Addr.fresh n) ∧
          alLookup acc.name
              (pass1 payer0 accounts ⟨[], [], c0⟩).signerByName = some n) ∧
    DistinctVals (pass1 payer0 accounts ⟨[], [], c0⟩).signerByName := by
  refine ⟨?_, ?_, ?_⟩
  · rintro a0 rest rfl hs
    simp only [List.map_cons, List.nodup_cons] at hnd
    obtain ⟨hnot, hnd'⟩ := hnd
    rw [pass1_cons]
    have hstep :
        alLookup a0.name
            (pass1Step payer0 ⟨[], [], c0⟩ a0).pubkeyByName = some payer0 ∧
        alLookup a0.name
            (pass1Step payer0 ⟨[], [], c0⟩ a0).signerByName = none := by
      rw [pass1Step]
      simp [hs, alLookup_alInsert_self, alLookup]
    have hpres := pass1_lookup_preserved payer0 rest
      (pass1Step payer0 ⟨[], [], c0⟩ a0) a0.name hnot
    exact ⟨hpres.1.trans hstep.1, hpres.2.trans hstep.2⟩
  · rintro a0 rest rfl acc hmem hs
    simp only [List.map_cons, List.nodup_cons] at hnd
    obtain ⟨hnot, hnd'⟩ := hnd
    rw [pass1_cons]
    exact pass1_signer_fresh payer0 rest (pass1Step payer0 ⟨[], [], c0⟩ a0)
      hnd' (pass1Step_pubkey_ne_nil payer0 ⟨[], [], c0⟩ a0) acc hmem hs
  · exact (pass1_signer_inv payer0 accounts ⟨[], [], c0⟩
      (by intro pr hpr; cases hpr) (by intro pr1 hpr1; cases hpr1)).2

def c3WitnessAccounts : List AccountSpec :=
  [{ name := "u", signer := true, writable := true, pda_seeds := [] },
   { name := "v", signer := true, writable := false, pda_seeds := [] }]

theorem c3_witness :
    alLookup "u"
        (pass1 Addr.payer c3WitnessAccounts ⟨[], [], 0⟩).pubkeyByName =
      some Addr.payer ∧
    alLookup "v"
        (pass1 Addr.payer c3WitnessAccounts ⟨[], [], 0⟩).pubkeyByName =
      some (Addr.fresh 0) ∧
    alLookup "v"
        (pass1 Addr.payer c3WitnessAccounts ⟨[], [], 0⟩).signerByName =
      some 0 := by
  have h := c3_signer_binding Addr.payer 0 c3WitnessAccounts (by decide)
  have hv := h.2.1 _ _ rfl
    { name := "v", signer := true, writable := false, pda_seeds := [] }
    (by decide) rfl
  exact ⟨(h.1 _ _ rfl rfl).1, by rfl, by rfl⟩

/-! ### Pass-2 facts -/

/-- The byte string a single seed contributes under the bindings `m` (only
meaningful when every referenced name is bound). -/
def seedBytes (m : List (String × Addr)) : SeedSpec → List Nat
  | .const b => b
  | .account p => ((alLookup p m).getD Addr.payer).toBytes

lemma resolveSeeds_eq_none_iff (m : List (String × Addr))
    (seeds : List SeedSpec) :
    resolveSeeds m seeds = none ↔
      ∃ p, SeedSpec.account p ∈ seeds ∧ alLookup p m = none := by
  induction seeds with
  | nil => simp [resolveSeeds]
  | cons s rest ih =>
    cases s with
    | const b =>
      rw [resolveSeeds]
      constructor
      · intro h
        obtain ⟨p, hp, hl⟩ := ih.mp (by
          cases hr : resolveSeeds m rest <;> simp [hr] at h ⊢)
        exact ⟨p, List.mem_cons_of_mem _ hp, hl⟩
      · rintro ⟨p, hp, hl⟩
        rcases List.mem_cons.mp hp with h1 | h1
        · cases h1
        · rw [ih.mpr ⟨p, h1, hl⟩]
          rfl
    | account q =>
      rw [resolveSeeds]
      cases hq : alLookup q m with
      | some pk =>
        constructor
        · intro h
          obtain ⟨p, hp, hl⟩ := ih.mp (by
            cases hr : resolveSeeds m rest <;> simp [hr] at h ⊢)
          exact ⟨p, List.mem_cons_of_mem _ hp, hl⟩
        · rintro ⟨p, hp, hl⟩
          rcases List.mem_cons.mp hp with h1 | h1
          · cases h1
            rw [hq] at hl
            cases hl
          · rw [ih.mpr ⟨p, h1, hl⟩]
            rfl
      | none =>
        simp only [true_iff]
        exact ⟨q, List.mem_cons_self _ _, hq⟩

lemma resolveSeeds_eq_some (m : List (String × Addr))
    (seeds : List SeedSpec)
    (h : ∀ p, SeedSpec.account p ∈ seeds → (alLookup p m).isSome) :
    resolveSeeds m seeds = some (seeds.map (seedBytes m)) := by
  induction seeds with
  | nil => rfl
  | cons s rest ih =>
    have hrest := ih (fun p hp => h p (List.mem_cons_of_mem _ hp))
    cases s with
    | const b =>
      rw [resolveSeeds, hrest]
      rfl
    | account q =>
      have hq := h q (List.mem_cons_self _ _)
      cases hlq : alLookup q m with
      | none => rw [hlq] at hq; cases hq
      | some pk =>
        rw [resolveSeeds, hlq, hrest]
        simp [seedBytes, hlq]

/-- C4, counterexample: account `a` is derived from a seed referencing the
LATER derived account `b` (a forward reference).  The claim says derivation
of `a` is skipped for the pass; instead the code derives `a` from `b`'s
pass-1 placeholder address `Addr.fresh 1` (its derived address is only
computed afterwards), so `a` ends up at
`find_program_address([fresh 1 bytes], program)` rather than keeping its
own pass-1 address. -/
def c4Ix : InstructionSpec :=
  { name := "link"
    discriminator := [1, 2, 3, 4, 5, 6, 7, 8]
    accounts := [{ name := "a", signer := false, writable := true
                   pda_seeds := [SeedSpec.account "b"] },
                 { name := "b", signer := false, writable := true
                   pda_seeds := [SeedSpec.const [1]] }]
    args := [] }

def c4Case : EdgeCase :=
  { id := "demo.json_link_base", idl_file := "demo.json"
    program_id := Addr.orig 0, instruction := c4Ix
    mutation := .none, expectation := .any }

theorem c4_counterexample :
    (build_accounts Addr.payer c4Case 0).1.map AccountMeta.pubkey =
      [Addr.pda [Addr.toBytes (Addr.fresh 1)] (Addr.orig 0),
       Addr.pda [[1]] (Addr.orig 0)] ∧
    Addr.pda [Addr.toBytes (Addr.fresh 1)] (Addr.orig 0) ≠ Addr.fresh 0 ∧
    Addr.toBytes (Addr.fresh 1) ≠
      Addr.toBytes (Addr.pda [[1]] (Addr.orig 0)) := by
  refine ⟨rfl, by simp, by decide⟩

/-- C4, amended: pass 2 processes seeded accounts in declaration order;
derivation of an account is skipped for the pass exactly when some
`Account(path)` seed names a string with NO binding in the address map
(after pass 1 every account of the instruction is bound, so this only
happens for paths naming no account of the instruction — a forward
reference to another account is NOT skipped, it resolves to that account's
currently bound address, i.e. its pass-1 placeholder if its own derivation
comes later); when every referenced name is bound, the account is rebound
to the address derived from its seed byte strings in declared order
(constants verbatim, references as the bound address bytes) and the owning
program address. -/
theorem c4_derivation (progId : Addr) (acc : AccountSpec)
    (rest : List AccountSpec) (m : List (String × Addr)) :
    pass2 progId (acc :: rest) m =
      pass2 progId rest (pass2Step progId m acc) ∧
    (acc.pda_seeds ≠ [] →
      ((∃ p, SeedSpec.account p ∈ acc.pda_seeds ∧ alLookup p m = none) →
        pass2Step progId m acc = m) ∧
      ((∀ p, SeedSpec.account p ∈ acc.pda_seeds → (alLookup p m).isSome) →
        pass2Step progId m acc =
          alInsert acc.name
            (Addr.pda (acc.pda_seeds.map (seedBytes m)) progId) m)) := by
  refine ⟨rfl, fun hne => ⟨fun hskip => ?_, fun hbound => ?_⟩⟩
  · rw [pass2Step, if_neg (by simpa using hne),
      (resolveSeeds_eq_none_iff m acc.pda_seeds).mpr hskip]
  · rw [pass2Step, if_neg (by simpa using hne),
      resolveSeeds_eq_some m acc.pda_seeds hbound]

def c4SkipAcc : AccountSpec :=
  { name := "s", signer := false, writable := true
    pda_seeds := [SeedSpec.account "q"] }

def c4BindAcc : AccountSpec :=
  { name := "t", signer := false, writable := true
    pda_seeds := [SeedSpec.const [1], SeedSpec.account "z"] }

theorem c4_witness :
    pass2Step (Addr.orig 0) [("z", Addr.fresh 5)] c4SkipAcc =
      [("z", Addr.fresh 5)] ∧
    pass2Step (Addr.orig 0) [("z", Addr.fresh 5)] c4BindAcc =
      [("z", Addr.fresh 5),
       ("t", Addr.pda [[1], [1, 5]] (Addr.orig 0))] := by
  have h1 := (c4_derivation (Addr.orig 0) c4SkipAcc []
    [("z", Addr.fresh 5)]).2 (by decide)
  have h2 := (c4_derivation (Addr.orig 0) c4BindAcc []
    [("z", Addr.fresh 5)]).2 (by decide)
  have hb : ∀ p, SeedSpec.account p ∈ c4BindAcc.pda_seeds →
      (alLookup p [("z", Addr.fresh 5)]).isSome := by
    intro p hp
    simp [c4BindAcc] at hp
    subst hp
    rfl
  refine ⟨h1.1 ⟨"q", by decide, rfl⟩, ?_⟩
  rw [h2.2 hb]
  rfl

/-! ### Which program address derivation uses -/

/-- `v` is a derived (`find_program_address`) address only for the program
`pid`. -/
def PdaProg (pid : Addr) (v : Addr) : Prop :=
  ∀ seeds prog, v = Addr.pda seeds prog → prog = pid

lemma pdaProg_payer (pid : Addr) : PdaProg pid Addr.payer := by
  intro seeds prog h
  cases h

lemma pdaProg_fresh (pid : Addr) (n : Nat) : PdaProg pid (Addr.fresh n) := by
  intro seeds prog h
  cases h

lemma pdaProg_pda (pid : Addr) (seeds : List (List Nat)) :
    PdaProg pid (Addr.pda seeds pid) := by
  intro s p h
  cases h
  rfl

lemma alInsert_vals {α : Type} {P : α → Prop} {l : List (String × α)}
    {k : String} {v : α} (hl : ∀ pr ∈ l, P pr.2) (hv : P v) :
    ∀ pr ∈ alInsert k v l, P pr.2 := by
  intro pr hpr
  rcases alInsert_mem hpr with h | h
  · rw [h]
    exact hv
  · exact hl pr h

lemma pass1_pdaProg (pid payer0 : Addr) (accounts : List AccountSpec)
    (st : ResolverSt) (hp : PdaProg pid payer0)
    (hst : ∀ pr ∈ st.pubkeyByName, PdaProg pid pr.2) :
    ∀ pr ∈ (pass1 payer0 accounts st).pubkeyByName, PdaProg pid pr.2 := by
  induction accounts generalizing st with
  | nil => exact hst
  | cons a rest ih =>
    rw [pass1_cons]
    refine ih (pass1Step payer0 st a) ?_
    rw [pass1Step]
    by_cases hs : a.signer
    · by_cases he : st.pubkeyByName.isEmpty
      · simp only [hs, he, if_true]
        exact alInsert_vals hst hp
      · simp only [hs, he, if_true, if_false]
        exact alInsert_vals hst (pdaProg_fresh pid st.ctr)
    · simp only [hs, if_false]
      exact alInsert_vals hst (pdaProg_fresh pid st.ctr)

lemma pass2_pdaProg (pid : Addr) (accounts : List AccountSpec)
    (m : List (String × Addr))
    (hm : ∀ pr ∈ m, PdaProg pid pr.2) :
    ∀ pr ∈ pass2 pid accounts m, PdaProg pid pr.2 := by
  induction accounts generalizing m with
  | nil => exact hm
  | cons a rest ih =>
    have hs : pass2 pid (a :: rest) m =
        pass2 pid rest (pass2Step pid m a) := rfl
    rw [hs]
    refine ih (pass2Step pid m a) ?_
    rw [pass2Step]
    by_cases he : a.pda_seeds.isEmpty
    · simp only [he, if_true]
      exact hm
    · simp only [he, if_false]
      cases hr : resolveSeeds m a.pda_seeds with
      | some seeds => exact alInsert_vals hm (pdaProg_pda pid seeds)
      | none => exact hm

lemma applyWrongPda_pdaProg (pid : Addr) (mu : Mutation)
    (m : List (String × Addr)) (ctr : Nat)
    (hm : ∀ pr ∈ m, PdaProg pid pr.2) :
    ∀ pr ∈ (applyWrongPdaMutation mu m ctr).1, PdaProg pid pr.2 := by
  cases mu with
  | wrongPda account =>
    rw [applyWrongPdaMutation]
    by_cases h : (alLookup account m).isSome
    · simp only [h, if_true]
      exact alInsert_vals hm (pdaProg_fresh pid ctr)
    · simp only [h, if_false]
      exact hm
  | none => exact hm
  | wrongProgramId => exact hm
  | truncateData => exact hm

lemma pass3_pdaProg (pid : Addr) (m : List (String × Addr))
    (signers : List (String × Nat)) (ctr : Nat)
    (accounts : List AccountSpec)
    (hm : ∀ pr ∈ m, PdaProg pid pr.2) :
    ∀ meta ∈ (pass3 m signers ctr accounts).1,
      PdaProg pid meta.pubkey := by
  induction accounts generalizing signers ctr with
  | nil => intro meta hmeta; cases hmeta
  | cons a rest ih =>
    intro meta hmeta
    rw [pass3] at hmeta
    have hkey : ∀ kc : Addr × Nat,
        (kc = match alLookup a.name m with
          | some k => (k, ctr)
          | none => (Addr.fresh ctr, ctr + 1)) →
        PdaProg pid kc.1 := by
      intro kc hkc
      cases hl : alLookup a.name m with
      | some k =>
        rw [hl] at hkc
        rw [hkc]
        exact hm (a.name, k) (alLookup_mem hl)
      | none =>
        rw [hl] at hkc
        rw [hkc]
        exact pdaProg_fresh pid ctr
    cases hsl : alLookup a.name signers with
    | some kp =>
      rw [hsl] at hmeta
      simp only [List.mem_cons] at hmeta
      rcases hmeta with h | h
      · rw [h]
        exact hkey _ rfl
      · exact ih (alRemove a.name signers) _ meta h
    | none =>
      rw [hsl] at hmeta
      simp only [List.mem_cons] at hmeta
      rcases hmeta with h | h
      · rw [h]
        exact hkey _ rfl
      · exact ih signers _ meta h

/-- Every account meta produced by `build_accounts` that carries a derived
(`find_program_address`) address was derived for the spec's original
program id, whatever the case's mutation is. -/
lemma build_accounts_pdaProg (case : EdgeCase) (ctr : Nat) :
    ∀ meta ∈ (build_accounts Addr.payer case ctr).1,
      PdaProg case.program_id meta.pubkey := by
  rw [build_accounts]
  refine pass3_pdaProg case.program_id _ _ _ _ ?_
  refine applyWrongPda_pdaProg case.program_id _ _ _ ?_
  refine pass2_pdaProg case.program_id _ _ ?_
  refine pass1_pdaProg case.program_id Addr.payer _ _
    (pdaProg_payer _) ?_
  intro pr hpr
  cases hpr

/-- C8: under the `WrongProgramId` mutation the built invocation is routed
to a freshly drawn program address (distinct, in particular, from any
spec-parsed original address); under every other mutation it is routed to
the case's original program address; and in either situation every derived
(`find_program_address`) account address among the metas was derived for
the original program address from the spec. -/
theorem c8_wrong_program_routing (case : EdgeCase) (ctr : Nat)
    (built : BuiltInstruction) (sigs : List Nat) (ctr2 : Nat)
    (h : run_case_build case ctr = .ok (built, sigs, ctr2)) :
    (case.mutation = .wrongProgramId →
      built.program_id =
        Addr.fresh (build_accounts Addr.payer case ctr).2.2 ∧
      ∀ k, case.program_id = Addr.orig k →
        built.program_id ≠ case.program_id) ∧
    (case.mutation ≠ .wrongProgramId →
      built.program_id = case.program_id) ∧
    (∀ meta ∈ built.accounts, ∀ seeds prog,
      meta.pubkey = Addr.pda seeds prog → prog = case.program_id) := by
  unfold run_case_build at h
  cases henc : encode_instruction_data case.instruction with
  | error e =>
    rw [henc] at h
    cases h
  | ok data0 =>
    rw [henc] at h
    simp only [Except.ok.injEq, Prod.mk.injEq] at h
    obtain ⟨hb, hsg, hc⟩ := h
    refine ⟨fun hm => ?_, fun hm => ?_, ?_⟩
    · rw [← hb, hm]
      refine ⟨rfl, fun k hk => ?_⟩
      rw [hk]
      simp
    · rw [← hb]
      cases hmm : case.mutation with
      | wrongProgramId => exact absurd hmm hm
      | none => rfl
      | truncateData => rfl
      | wrongPda a => rfl
    · rw [← hb]
      intro meta hmeta seeds prog hpk
      exact build_accounts_pdaProg case ctr meta hmeta seeds prog hpk

theorem c8_witness :
    run_case_build (wrongProgramCase exProgram exIx) 0 =
      .ok ({ program_id := Addr.fresh 2
             accounts :=
               [{ pubkey :=
                    Addr.pda [[118, 97, 117, 108, 116], [1, 1]]
                      (Addr.orig 0)
                  is_signer := false, is_writable := true },
                { pubkey := Addr.fresh 1
                  is_signer := true, is_writable := true }]
             data := [242, 35, 198, 137, 82, 225, 242, 182,
                      0, 0, 0, 0, 0, 0, 0, 0] }, [1], 3) ∧
    Addr.fresh 2 =
      Addr.fresh
        (build_accounts Addr.payer (wrongProgramCase exProgram exIx) 0).2.2 ∧
    Addr.fresh 2 ≠ (wrongProgramCase exProgram exIx).program_id ∧
    Addr.orig 0 = (wrongProgramCase exProgram exIx).program_id := by
  have h := c8_wrong_program_routing (wrongProgramCase exProgram exIx) 0
    { program_id := Addr.fresh 2
      accounts :=
        [{ pubkey :=
             Addr.pda [[118, 97, 117, 108, 116], [1, 1]] (Addr.orig 0)
           is_signer := false, is_writable := true },
         { pubkey := Addr.fresh 1
           is_signer := true, is_writable := true }]
      data := [242, 35, 198, 137, 82, 225, 242, 182,
               0, 0, 0, 0, 0, 0, 0, 0] } [1] 3 (by rfl)
  refine ⟨by rfl, (h.1 rfl).1, (h.1 rfl).2 0 rfl, ?_⟩
  exact h.2.2
    { pubkey := Addr.pda [[118, 97, 117, 108, 116], [1, 1]] (Addr.orig 0)
      is_signer := false, is_writable := true }
    (List.mem_cons_self _ _) [[118, 97, 117, 108, 116], [1, 1]]
    (Addr.orig 0) rfl

/-- C6: when the payload encodes successfully, a `TruncateData` case submits
the encoded payload with its final byte removed (one byte shorter whenever
the payload is non-empty); for a zero-argument instruction the payload is
the discriminator itself, so with the mandatory 8-byte discriminator the
submitted data is its first 7 bytes — the mutation is not a no-op there. -/
theorem c6_truncate_data (case : EdgeCase) (ctr : Nat) (d : List Nat)
    (henc : encode_instruction_data case.instruction = .ok d)
    (hmut : case.mutation = .truncateData) :
    (∃ sigs ctr2 progOut,
      run_case_build case ctr =
        .ok ({ program_id := progOut
               accounts := (build_accounts Addr.payer case ctr).1
               data := d.dropLast }, sigs, ctr2)) ∧
    (d ≠ [] → d.dropLast.length + 1 = d.length) ∧
    (case.instruction.args = [] → d = case.instruction.discriminator) ∧
    (case.instruction.args = [] → case.instruction.discriminator.length = 8 →
      d.dropLast = d.take 7 ∧ d.dropLast.length = 7) := by
  refine ⟨?_, ?_, ?_, ?_⟩
  · refine ⟨(build_accounts Addr.payer case ctr).2.1,
      (build_accounts Addr.payer case ctr).2.2, case.program_id, ?_⟩
    unfold run_case_build
    rw [henc]
    by_cases hd : d.isEmpty
    · have hdnil : d = [] := by simpa using hd
      subst hdnil
      simp [hmut]
    · simp [hmut, hd]
  · intro hne
    rw [List.length_dropLast]
    have : 0 < d.length := List.length_pos.mpr hne
    omega
  · intro hargs
    rw [encode_instruction_data, hargs, encodeArgsLoop] at henc
    cases henc
    rfl
  · intro hargs h8
    have hdisc : d = case.instruction.discriminator := by
      rw [encode_instruction_data, hargs, encodeArgsLoop] at henc
      cases henc
      rfl
    have hlen : d.length = 8 := by rw [hdisc, h8]
    constructor
    · rw [List.dropLast_eq_take, hlen]
    · rw [List.length_dropLast, hlen]

theorem c6_witness :
    run_case_build (truncateCase exProgram c3Ix) 0 =
      .ok ({ program_id := Addr.orig 0
             accounts :=
               [{ pubkey := Addr.fresh 0
                  is_signer := false, is_writable := true },
                { pubkey := Addr.fresh 1
                  is_signer := true, is_writable := true }]
             data := ([1, 2, 3, 4, 5, 6, 7, 8] : List Nat).dropLast },
        [1], 2) ∧
    ([1, 2, 3, 4, 5, 6, 7, 8] : List Nat).dropLast =
      ([1, 2, 3, 4, 5, 6, 7, 8] : List Nat).take 7 ∧
    ([1, 2, 3, 4, 5, 6, 7, 8] : List Nat).dropLast.length = 7 := by
  have h := c6_truncate_data (truncateCase exProgram c3Ix) 0
    [1, 2, 3, 4, 5, 6, 7, 8] (by rfl) (by rfl)
  exact ⟨by rfl, (h.2.2.2 rfl rfl).1, (h.2.2.2 rfl rfl).2⟩

/-! ## Spec loader (`specs.rs`) -/

/-- `str::replace('-', "_")` (character-wise hyphen normalisation). -/
def normHyphens (s : String) : String :=
  String.mk (s.toList.map (fun c => if c = '-' then '_' else c))

/-- `specs.rs::resolve_so_file`.  Filesystem access is made explicit:
`deployFiles` is the set of file names existing in `deploy_dir` (the
`p.exists()` checks), `sos` the pre-collected `.so` paths handed in by the
caller (`sos[0]` is modelled by `headD`). -/
def resolve_so_file (deploy_dir : String) (deployFiles : List String)
    (sos : List String) (stem meta_name : String) : Except String String :=
  let c0 := normHyphens stem ++ ".so"
  let c1 := normHyphens meta_name ++ ".so"
  if deployFiles.contains c0 then .ok (deploy_dir ++ "/" ++ c0)
  else if deployFiles.contains c1 then .ok (deploy_dir ++ "/" ++ c1)
  else if sos.length = 1 then .ok (sos.headD "")
  else
    .error ("Could not resolve matching .so in " ++ deploy_dir ++
      " for idl stem=" ++ stem ++ " meta_name=" ++ meta_name)

/-- `sub` occurs contiguously inside `s`. -/
def containsSubstring (s sub : String) : Prop :=
  sub.toList <:+: s.toList

instance containsSubstringDec (s sub : String) :
    Decidable (containsSubstring s sub) :=
  inferInstanceAs (Decidable (sub.toList <:+: s.toList))

set_option maxRecDepth 8000 in
/-- C7, counterexample: with no matching file and no unique artifact, the
error message names the raw idl stem and metadata name, NOT the normalised
candidate filenames: for stem `my-prog` the candidate `my_prog.so` (hyphen
normalised to underscore) appears nowhere in the message. -/
theorem c7_counterexample :
    resolve_so_file "deploy" [] [] "my-prog" "other" =
      .error ("Could not resolve matching .so in deploy for idl " ++
        "stem=my-prog meta_name=other") ∧
    ¬ containsSubstring
        ("Could not resolve matching .so in deploy for idl " ++
          "stem=my-prog meta_name=other") "my_prog.so" := by
  exact ⟨by rfl, by decide⟩

/-- C7, amended: the two candidate names are the hyphen-normalised stem and
package name with `.so` appended; an existing base-name candidate wins,
then an existing package-name candidate, then a unique-artifact fallback;
otherwise resolution fails with an error that names the description file's
base name (raw stem), the package-name field (raw) and the directory — not
the normalised candidate filenames. -/
theorem c7_artifact_resolution (deploy_dir stem meta_name : String)
    (deployFiles sos : List String) :
    (deployFiles.contains (normHyphens stem ++ ".so") = true →
      resolve_so_file deploy_dir deployFiles sos stem meta_name =
        .ok (deploy_dir ++ "/" ++ (normHyphens stem ++ ".so"))) ∧
    (deployFiles.contains (normHyphens stem ++ ".so") = false →
      deployFiles.contains (normHyphens meta_name ++ ".so") = true →
      resolve_so_file deploy_dir deployFiles sos stem meta_name =
        .ok (deploy_dir ++ "/" ++ (normHyphens meta_name ++ ".so"))) ∧
    (deployFiles.contains (normHyphens stem ++ ".so") = false →
      deployFiles.contains (normHyphens meta_name ++ ".so") = false →
      ∀ so, sos = [so] →
        resolve_so_file deploy_dir deployFiles sos stem meta_name =
          .ok so) ∧
    (deployFiles.contains (normHyphens stem ++ ".so") = false →
      deployFiles.contains (normHyphens meta_name ++ ".so") = false →
      sos.length ≠ 1 →
      ∃ msg,
        resolve_so_file deploy_dir deployFiles sos stem meta_name =
          .error msg ∧
        containsSubstring msg stem ∧
        containsSubstring msg meta_name ∧
        containsSubstring msg deploy_dir) := by
  refine ⟨fun h0 => ?_, fun h0 h1 => ?_, fun h0 h1 so hso => ?_,
    fun h0 h1 hn => ?_⟩
  · rw [resolve_so_file]
    simp only [h0, if_true]
  · rw [resolve_so_file]
    simp only [h0, h1, if_true, if_false, Bool.false_eq_true]
  · subst hso
    rw [resolve_so_file]
    simp only [h0, h1, Bool.false_eq_true, if_false, if_true,
      List.length_cons, List.length_nil]
    rfl
  · refine ⟨"Could not resolve matching .so in " ++ deploy_dir ++
      " for idl stem=" ++ stem ++ " meta_name=" ++ meta_name, ?_, ?_, ?_, ?_⟩
    · rw [resolve_so_file]
      simp only [h0, h1, hn, Bool.false_eq_true, if_false]
    · refine ⟨("Could not resolve matching .so in " ++ deploy_dir ++
        " for idl stem=").toList, (" meta_name=" ++ meta_name).toList, ?_⟩
      simp [containsSubstring]
    · refine ⟨("Could not resolve matching .so in " ++ deploy_dir ++
        " for idl stem=" ++ stem ++ " meta_name=").toList, [], ?_⟩
      simp [containsSubstring]
    · refine ⟨"Could not resolve matching .so in ".toList,
        (" for idl stem=" ++ stem ++ " meta_name=" ++ meta_name).toList, ?_⟩
      simp [containsSubstring]

theorem c7_witness :
    resolve_so_file "deploy" ["my_prog.so"] [] "my-prog" "other" =
      .ok ("deploy" ++ "/" ++ (normHyphens "my-prog" ++ ".so")) ∧
    resolve_so_file "deploy" ["other.so"] [] "my-prog" "other" =
      .ok ("deploy" ++ "/" ++ (normHyphens "other" ++ ".so")) ∧
    resolve_so_file "deploy" [] ["deploy/unique.so"] "my-prog" "other" =
      .ok "deploy/unique.so" ∧
    resolve_so_file "deploy" [] [] "my-prog" "other" =
      .error ("Could not resolve matching .so in deploy for idl " ++
        "stem=my-prog meta_name=other") ∧
    containsSubstring
      ("Could not resolve matching .so in deploy for idl " ++
        "stem=my-prog meta_name=other") "my-prog" ∧
    containsSubstring
      ("Could not resolve matching .so in deploy for idl " ++
        "stem=my-prog meta_name=other") "other" ∧
    containsSubstring
      ("Could not resolve matching .so in deploy for idl " ++
        "stem=my-prog meta_name=other") "deploy" := by
  obtain ⟨msg, hmsg, hs1, hs2, hs3⟩ :=
    (c7_artifact_resolution "deploy" "my-prog" "other" [] []).2.2.2
      (by rfl) (by rfl) (by decide)
  have he : Except.error (α := String) msg =
      .error ("Could not resolve matching .so in deploy for idl " ++
        "stem=my-prog meta_name=other") :=
    hmsg.symm.trans (by rfl)
  injection he with he'
  subst he'
  exact ⟨(c7_artifact_resolution "deploy" "my-prog" "other"
      ["my_prog.so"] []).1 (by rfl),
    (c7_artifact_resolution "deploy" "my-prog" "other"
      ["other.so"] []).2.1 (by rfl) (by rfl),
    (c7_artifact_resolution "deploy" "my-prog" "other"
      [] ["deploy/unique.so"]).2.2.1 (by rfl) (by rfl)
      "deploy/unique.so" rfl,
    hmsg, hs1, hs2, hs3⟩

/-- One entry of the `a["pda"]["seeds"]` array in
`specs.rs::parse_instruction`: `const` entries need an array `value`
(filtered to u64-parsable bytes, cast mod 256), `account` entries a string
`path`; anything else contributes no seed. -/
def parseSeedEntry (s : Json) : Option SeedSpec :=
  match ((s.index "kind").asStr).getD "" with
  | "const" =>
    ((s.index "value").asArray).map
      (fun bytes => SeedSpec.const
        (bytes.filterMap (fun v => v.asU64.map (· % 256))))
  | "account" => ((s.index "path").asStr).map SeedSpec.account
  | _ => none

/-- One entry of the `accounts` array in `specs.rs::parse_instruction`. -/
def parseAccount (a : Json) : AccountSpec :=
  { name := ((a.index "name").asStr).getD "unknown"
    signer := ((a.index "signer").asBool).getD false
    writable := ((a.index "writable").asBool).getD false
    pda_seeds :=
      match ((a.index "pda").index "seeds").asArray with
      | some seeds => seeds.filterMap parseSeedEntry
      | none => [] }

/-- One entry of the `args` array in `specs.rs::parse_instruction`. -/
def parseArg (a : Json) : ArgSpec :=
  { name := ((a.index "name").asStr).getD "arg"
    ty := a.index "type" }

/-- `specs.rs::parse_instruction`: `None` when the name is not a string,
the discriminator is not an array, or the filtered discriminator byte list
does not have length exactly 8. -/
def parse_instruction (ix : Json) : Option InstructionSpec :=
  match (ix.index "name").asStr with
  | none => none
  | some name =>
    match (ix.index "discriminator").asArray with
    | none => none
    | some dj =>
      let discriminator := dj.filterMap (fun v => v.asU64.map (· % 256))
      if discriminator.length ≠ 8 then none
      else
        some
          { name := name
            discriminator := discriminator
            accounts :=
              match (ix.index "accounts").asArray with
              | some accs => accs.map parseAccount
              | none => []
            args :=
              match (ix.index "args").asArray with
              | some l => l.map parseArg
              | none => [] }

/-- The `for ix in ixs { if let Some(spec) = parse_instruction(ix) }` loop
of `specs.rs::load_program_specs`: unparsable entries are dropped. -/
def parseInstructions (ixs : List Json) : List InstructionSpec :=
  ixs.filterMap parse_instruction

lemma parse_instruction_disc_length (j : Json) (spec : InstructionSpec)
    (h : parse_instruction j = some spec) :
    spec.discriminator.length = 8 := by
  rw [parse_instruction] at h
  cases hn : (j.index "name").asStr with
  | none =>
    simp only [hn] at h
    exact Option.noConfusion h
  | some name =>
    cases hd : (j.index "discriminator").asArray with
    | none =>
      simp only [hn, hd] at h
      exact Option.noConfusion h
    | some dj =>
      simp only [hn, hd] at h
      by_cases hl :
          (dj.filterMap (fun v => v.asU64.map (· % 256))).length ≠ 8
      · rw [if_pos hl] at h
        cases h
      · rw [if_neg hl] at h
        cases h
        simpa using hl

/-- C9: every `InstructionSpec` the loader produces carries a discriminator
of exactly 8 bytes; an entry whose filtered discriminator byte list is not
of length 8 parses to `None`, and such an entry is omitted from the
collected instruction list without aborting the surrounding loop. -/
theorem c9_discriminator_invariant (ixs : List Json) :
    (∀ spec ∈ parseInstructions ixs, spec.discriminator.length = 8) ∧
    (∀ j dj, (Json.index j "discriminator").asArray = some dj →
      (dj.filterMap (fun v => v.asU64.map (· % 256))).length ≠ 8 →
      parse_instruction j = none) ∧
    (∀ j rest, parse_instruction j = none →
      parseInstructions (j :: rest) = parseInstructions rest) := by
  refine ⟨?_, ?_, ?_⟩
  · intro spec hspec
    obtain ⟨j, hj, hparse⟩ := List.mem_filterMap.mp hspec
    exact parse_instruction_disc_length j spec hparse
  · intro j dj hd hl
    rw [parse_instruction]
    cases hn : (j.index "name").asStr with
    | none => rfl
    | some name =>
      simp only [hn, hd, if_pos hl]
  · intro j rest hnone
    rw [parseInstructions, List.filterMap_cons, hnone]
    rfl

def c9GoodJson : Json :=
  Json.obj
    [("name", Json.str "ping"),
     ("discriminator",
       Json.arr [Json.num 1, Json.num 2, Json.num 3, Json.num 4,
                 Json.num 5, Json.num 6, Json.num 7, Json.num 8])]

def c9BadJson : Json :=
  Json.obj
    [("name", Json.str "pong"),
     ("discriminator",
       Json.arr [Json.num 1, Json.num 2, Json.num 3])]

theorem c9_witness :
    parseInstructions [c9BadJson, c9GoodJson] =
      parseInstructions [c9GoodJson] ∧
    parse_instruction c9BadJson = none ∧
    ({ name := "ping", discriminator := [1, 2, 3, 4, 5, 6, 7, 8]
       accounts := [], args := [] } :
        InstructionSpec).discriminator.length = 8 := by
  have h := c9_discriminator_invariant [c9BadJson, c9GoodJson]
  have hbad : parse_instruction c9BadJson = none :=
    h.2.1 c9BadJson
      [Json.num 1, Json.num 2, Json.num 3] (by rfl) (by decide)
  have heq : parseInstructions [c9BadJson, c9GoodJson] =
      [{ name := "ping", discriminator := [1, 2, 3, 4, 5, 6, 7, 8]
         accounts := [], args := [] }] := rfl
  have hmem : ({ name := "ping"
                 discriminator := [1, 2, 3, 4, 5, 6, 7, 8]
                 accounts := [], args := [] } : InstructionSpec) ∈
      parseInstructions [c9BadJson, c9GoodJson] := by
    rw [heq]
    exact List.mem_cons_self _ _
  exact ⟨h.2.2 c9BadJson [c9GoodJson] hbad, hbad, h.1 _ hmem⟩
/-- The program-address extraction of `specs.rs::load_program_specs`:
`idl["address"].as_str().or_else(|| idl["metadata"]["address"].as_str())`. -/
def extractAddressStr (idl : Json) : Option String :=
  match (idl.index "address").asStr with
  | some s => some s
  | none => ((idl.index "metadata").index "address").asStr

/-- The per-file loop of `specs.rs::load_program_specs` over the already
JSON-parsed `.json` directory entries (directory reading, the extension
filter and JSON parsing are external I/O; a JSON parse failure is fatal
upstream of this loop).  The base-58 address parser (`str::parse::<Address>`)
and `Path::file_stem` are external, passed in as `parseAddr` and `stemOf`;
a file whose address is missing or unparsable is skipped with `continue`;
an artifact-resolution failure aborts with the error (`?`); a file with no
parsed instructions is dropped. -/
def load_program_specs (parseAddr : String → Option Addr)
    (stemOf : String → String) (deploy_dir : String)
    (deployFiles : List String) (sos : List String) :
    List (String × Json) → Except String (List ProgramSpec)
  | [] => .ok []
  | (fname, idl) :: rest =>
    match extractAddressStr idl with
    | none =>
      load_program_specs parseAddr stemOf deploy_dir deployFiles sos rest
    | some addrStr =>
      match parseAddr addrStr with
      | none =>
        load_program_specs parseAddr stemOf deploy_dir deployFiles sos rest
      | some program_id =>
        match resolve_so_file deploy_dir deployFiles sos (stemOf fname)
            ((((idl.index "metadata").index "name").asStr).getD "") with
        | .error e => .error e
        | .ok deploy_so =>
          let instructions :=
            match (idl.index "instructions").asArray with
            | some ixs => parseInstructions ixs
            | none => []
          match load_program_specs parseAddr stemOf deploy_dir deployFiles
              sos rest with
          | .error e => .error e
          | .ok programs =>
            .ok (if instructions.isEmpty then programs
              else
                { idl_file := fname
                  program_id := program_id
                  deploy_so := deploy_so
                  instructions := instructions } :: programs)

/-- C10: a description file in which neither program-address location holds
a string, or whose address string does not parse, is silently skipped: the
loader's result on that file plus the remaining files equals its result on
the remaining files alone — no abort, no error recorded for the file. -/
theorem c10_unparsable_address_skipped (parseAddr : String → Option Addr)
    (stemOf : String → String) (deploy_dir : String)
    (deployFiles sos : List String) (fname : String) (idl : Json)
    (rest : List (String × Json))
    (h : extractAddressStr idl = none ∨
      ∃ s, extractAddressStr idl = some s ∧ parseAddr s = none) :
    load_program_specs parseAddr stemOf deploy_dir deployFiles sos
        ((fname, idl) :: rest) =
      load_program_specs parseAddr stemOf deploy_dir deployFiles sos
        rest := by
  rcases h with h | ⟨s, hs, hp⟩
  · rw [load_program_specs, h]
  · rw [load_program_specs, hs]
    simp only [hp]

def c10NoAddrJson : Json := Json.obj [("metadata", Json.obj [])]

def c10BadAddrJson : Json := Json.obj [("address", Json.str "not-base58")]

theorem c10_witness :
    load_program_specs (fun _ => Option.none) (fun s => s) "deploy" [] []
        [("a.json", c10NoAddrJson), ("b.json", c10BadAddrJson)] =
      load_program_specs (fun _ => Option.none) (fun s => s) "deploy" [] []
        [("b.json", c10BadAddrJson)] ∧
    load_program_specs (fun _ => Option.none) (fun s => s) "deploy" [] []
        [("b.json", c10BadAddrJson)] = .ok [] := by
  constructor
  · exact c10_unparsable_address_skipped (fun _ => Option.none)
      (fun s => s) "deploy" [] [] "a.json" c10NoAddrJson
      [("b.json", c10BadAddrJson)] (Or.inl rfl)
  · have h2 := c10_unparsable_address_skipped (fun _ => Option.none)
      (fun s => s) "deploy" [] [] "b.json" c10BadAddrJson []
      (Or.inr ⟨"not-base58", rfl, rfl⟩)
    exact h2.trans rfl
